import Mathlib

/-!
Verification of the PhysicsLab kernel specification.

The repository ships only the public C header `physicslab_kernel.h`,
which declares the binary call surface:

  uint64_t pl_world_create(double y0, double vy0);
  void     pl_world_destroy(uint64_t handle);
  int32_t  pl_world_step(uint64_t handle, double dt, uint32_t steps);
  int32_t  pl_world_get_state(uint64_t handle, double* t, double* y, double* vy);
  int32_t  pl_last_error_code(void);
  uint32_t pl_last_error_message(uint8_t* out_buf, uint32_t buf_len);

The implementations of these functions are not part of the source tree,
so every definition below is modelled from the specification document.
Doubles are modelled as extended exact rationals: a finite rational
value, two signed infinities, or NaN; a finite arithmetic result whose
magnitude exceeds the largest representable magnitude `FMAX` overflows
to the corresponding infinity, mirroring IEEE-754 overflow.  Rationals
are represented as unreduced numerator/denominator pairs (`Q`); every
value built by the kernel has a positive denominator.  The two policy
constants that the specification leaves open (`MAX_STEPS` and the
per-call maximum time increment) are fixed to concrete values here, as
the specification instructs an implementer to do.
-/

/-- An exact rational as an unreduced pair: integer numerator over
natural denominator.  All values produced by the kernel model keep the
denominator positive. -/
structure Q where
  num : Int
  den : Nat
deriving DecidableEq, Repr

/-- The rational `n / 1`. -/
def Q.ofInt (n : Int) : Q := ⟨n, 1⟩

/-- Addition of rational pairs. -/
def Q.add (a b : Q) : Q := ⟨a.num * b.den + b.num * a.den, a.den * b.den⟩

/-- Multiplication of rational pairs. -/
def Q.mul (a b : Q) : Q := ⟨a.num * b.num, a.den * b.den⟩

/-- Negation of a rational pair. -/
def Q.neg (a : Q) : Q := ⟨-a.num, a.den⟩

/-- Value comparison of rational pairs (cross multiplication; correct
whenever both denominators are positive). -/
def Q.le (a b : Q) : Bool := a.num * b.den ≤ b.num * a.den

/-- Strict value comparison of rational pairs. -/
def Q.lt (a b : Q) : Bool := a.num * b.den < b.num * a.den

/-- Value equality of rational pairs (cross multiplication). -/
def Q.eq (a b : Q) : Bool := a.num * b.den = b.num * a.den

/-- Modelled from the spec: a float64 value as seen across the kernel
boundary — a finite rational, positive infinity, negative infinity, or
NaN (the missing C implementation stores IEEE-754 doubles). -/
inductive F where
  | fin : Q → F
  | pinf : F
  | ninf : F
  | nan : F
deriving DecidableEq, Repr

/-- Largest finite magnitude of the modelled float64: the exact integer
value of IEEE-754 DBL_MAX, `(2 - 2^-52) * 2^1023 = 2^1024 - 2^971`,
written out as a numeral. -/
def FMAX : Q :=
  ⟨179769313486231570814527423731704356798070567525844996598917476803157260780028538760589558632766878171540458953514382464234321326889464182768467546703537516986049910576551282076245490090389328944075868508455133942304583236903222948165808559332123348274797826204144723168738177180919299881250404026184124858368, 1⟩

/-- A finite arithmetic result overflows to a signed infinity when its
magnitude exceeds `FMAX`. -/
def clampF (q : Q) : F :=
  if FMAX.lt q then .pinf else if q.lt FMAX.neg then .ninf else .fin q

/-- Modelled from the spec: addition on kernel floats, with IEEE-style
propagation of infinities and NaN. -/
def F.add : F → F → F
  | .fin a, .fin b => clampF (a.add b)
  | .fin _, .pinf => .pinf
  | .pinf, .fin _ => .pinf
  | .pinf, .pinf => .pinf
  | .fin _, .ninf => .ninf
  | .ninf, .fin _ => .ninf
  | .ninf, .ninf => .ninf
  | .pinf, .ninf => .nan
  | .ninf, .pinf => .nan
  | .nan, _ => .nan
  | _, .nan => .nan

/-- Modelled from the spec: multiplication on kernel floats, with
IEEE-style sign rules for infinities and NaN propagation. -/
def F.mul : F → F → F
  | .fin a, .fin b => clampF (a.mul b)
  | .fin a, .pinf => if 0 < a.num then .pinf else if a.num < 0 then .ninf else .nan
  | .pinf, .fin a => if 0 < a.num then .pinf else if a.num < 0 then .ninf else .nan
  | .fin a, .ninf => if 0 < a.num then .ninf else if a.num < 0 then .pinf else .nan
  | .ninf, .fin a => if 0 < a.num then .ninf else if a.num < 0 then .pinf else .nan
  | .pinf, .pinf => .pinf
  | .ninf, .ninf => .pinf
  | .pinf, .ninf => .ninf
  | .ninf, .pinf => .ninf
  | .nan, _ => .nan
  | _, .nan => .nan

/-- A kernel float is finite exactly when it carries a rational value. -/
def F.isFinite : F → Bool
  | .fin _ => true
  | _ => false

/-- Modelled from the spec: the WorldState record — elapsed time `t`,
vertical position `y`, vertical velocity `vy`. -/
structure World where
  t : F
  y : F
  vy : F
deriving DecidableEq, Repr

/-- All three WorldState fields are finite. -/
def World.allFinite (w : World) : Bool :=
  w.t.isFinite && w.y.isFinite && w.vy.isFinite

/-- Modelled from the spec: the fixed gravitational constant
`g = -9.8 = -49/5`. -/
def g : F := .fin ⟨-49, 5⟩

/-- Modelled from the spec: the Integrator `advance(state, dt)` —
semi-implicit Euler: velocity is updated first (`vy + g*dt`), then the
position uses the updated velocity (`y + vy2*dt`), then `t + dt`. -/
def advance (s : World) (dt : F) : World :=
  let vy2 := s.vy.add (g.mul dt)
  { t := s.t.add dt, y := s.y.add (vy2.mul dt), vy := vy2 }

/-- Modelled from the spec: the Registry invokes the Integrator `steps`
times sequentially, checking after each invocation that every field is
finite; `none` signals that some invocation produced a non-finite value. -/
def advanceN : Nat → World → F → Option World
  | 0, s, _ => some s
  | n + 1, s, dt =>
    let s2 := advance s dt
    if s2.allFinite then advanceN n s2 dt else none

/-- Modelled from the spec: the Policy Guard constant `MAX_STEPS`
(open design parameter; fixed here to 1000000). -/
def MAX_STEPS : Nat := 1000000

/-- Modelled from the spec: the Policy Guard per-call maximum time
increment (open design parameter; fixed here to 1000 seconds). -/
def DT_MAX : Q := ⟨1000, 1⟩

/-- Modelled from the spec: the Policy Guard `validate(dt, steps)`.
Denied when `dt` is not finite, `dt <= 0`, `steps == 0`,
`steps > MAX_STEPS`, `dt` exceeds the per-call maximum increment, or
`dt * steps` would overflow the representable time range. -/
def validate (dt : F) (steps : Nat) : Bool :=
  match dt with
  | .fin q =>
    (Q.ofInt 0).lt q && q.le DT_MAX && (steps != 0) &&
      (steps ≤ MAX_STEPS : Bool) && (q.mul (Q.ofInt steps)).le FMAX
  | _ => false

/-- Status code `PL_STATUS_OK` from the header. -/
def PL_STATUS_OK : Nat := 0

/-- Status code `PL_STATUS_INVALID_ARGUMENT` from the header. -/
def PL_STATUS_INVALID_ARGUMENT : Nat := 1

/-- Status code `PL_STATUS_INVALID_HANDLE` from the header. -/
def PL_STATUS_INVALID_HANDLE : Nat := 2

/-- Status code `PL_STATUS_POLICY_DENIED` from the header. -/
def PL_STATUS_POLICY_DENIED : Nat := 3

/-- Status code `PL_STATUS_INTERNAL_ERROR` from the header. -/
def PL_STATUS_INTERNAL_ERROR : Nat := 4

/-- Modelled from the spec: the kernel state — the Registry mapping from
handles to live WorldStates, the monotonic next-handle counter, and the
calling context's LastError record `{code, message}`. -/
structure Kernel where
  worlds : List (Nat × World)
  nextHandle : Nat
  lastCode : Nat
  lastMsg : String
deriving DecidableEq, Repr

/-- The initial kernel state: empty registry, handle counter at 1
(0 is the sentinel handle), LastError clear. -/
def initKernel : Kernel :=
  { worlds := [], nextHandle := 1, lastCode := PL_STATUS_OK, lastMsg := "" }

/-- Overwrite the LastError record. -/
def setErr (k : Kernel) (c : Nat) (m : String) : Kernel :=
  { k with lastCode := c, lastMsg := m }

/-- Replace the world stored under handle `h`. -/
def updateWorld (ws : List (Nat × World)) (h : Nat) (w : World) :
    List (Nat × World) :=
  ws.map fun p => if p.1 = h then (h, w) else p

/-- Modelled from the spec: `pl_world_create` — with finite arguments,
inserts `{t=0, y=y0, vy=vy0}` under a freshly allocated handle, clears
LastError to `{OK, ""}` and returns the handle; with a non-finite
argument, creates nothing, sets `InvalidArgument`, and returns the
sentinel handle 0. -/
def pl_world_create (y0 vy0 : F) (k : Kernel) : Nat × Kernel :=
  if y0.isFinite && vy0.isFinite then
    (k.nextHandle,
     { worlds := (k.nextHandle, { t := .fin (Q.ofInt 0), y := y0, vy := vy0 }) :: k.worlds,
       nextHandle := k.nextHandle + 1, lastCode := PL_STATUS_OK, lastMsg := "" })
  else
    (0, setErr k PL_STATUS_INVALID_ARGUMENT "invalid argument")

/-- Modelled from the spec: `pl_world_destroy` — removes the world for
`handle` if present; a missing handle is a silent no-op.  It cannot fail
and sets no error; like every kernel call it overwrites LastError with
the outcome, here always `{OK, ""}`. -/
def pl_world_destroy (h : Nat) (k : Kernel) : Kernel :=
  { worlds := k.worlds.filter fun p => p.1 != h,
    nextHandle := k.nextHandle, lastCode := PL_STATUS_OK, lastMsg := "" }

/-- Modelled from the spec: `pl_world_step` — looks up the handle
(absent: `InvalidHandle`, no mutation); validates `(dt, steps)`
(rejected: `PolicyDenied`, no mutation); iterates the Integrator,
committing only if every invocation is finite (otherwise
`InternalError`, no mutation); on success replaces the stored state,
clears LastError and returns `OK`. -/
def pl_world_step (h : Nat) (dt : F) (steps : Nat) (k : Kernel) :
    Nat × Kernel :=
  match k.worlds.lookup h with
  | none => (PL_STATUS_INVALID_HANDLE,
             setErr k PL_STATUS_INVALID_HANDLE "invalid handle")
  | some w =>
    if validate dt steps then
      match advanceN steps w dt with
      | some w2 =>
        (PL_STATUS_OK,
         { worlds := updateWorld k.worlds h w2, nextHandle := k.nextHandle,
           lastCode := PL_STATUS_OK, lastMsg := "" })
      | none =>
        (PL_STATUS_INTERNAL_ERROR,
         setErr k PL_STATUS_INTERNAL_ERROR "non-finite result")
    else
      (PL_STATUS_POLICY_DENIED,
       setErr k PL_STATUS_POLICY_DENIED "policy denied")

/-- Modelled from the spec: `pl_world_get_state` — looks up the handle;
if absent, sets `InvalidHandle` and leaves the caller outputs untouched
(modelled by returning `none`); otherwise copies `t, y, vy` out, clears
LastError and returns `OK`.  Never mutates the registry. -/
def pl_world_get_state (h : Nat) (k : Kernel) :
    Nat × Option (F × F × F) × Kernel :=
  match k.worlds.lookup h with
  | none => (PL_STATUS_INVALID_HANDLE, none,
             setErr k PL_STATUS_INVALID_HANDLE "invalid handle")
  | some w => (PL_STATUS_OK, some (w.t, w.y, w.vy),
               { k with lastCode := PL_STATUS_OK, lastMsg := "" })

/-- Modelled from the spec: `pl_last_error_code` — returns the current
code without clearing it (the kernel state is not modified). -/
def pl_last_error_code (k : Kernel) : Nat := k.lastCode

/-- Modelled from the spec: `pl_last_error_message` — copies as much of
the current message as fits into the caller buffer (modelled as the list
of bytes currently in the buffer), never writing past its capacity, and
returns the full untruncated message length. -/
def pl_last_error_message (msg buf : List Nat) : List Nat × Nat :=
  (msg.take buf.length ++ buf.drop msg.length, msg.length)

/-- The four kernel calls that can follow creation of the kernel. -/
inductive Op where
  | create (y0 vy0 : F)
  | destroy (h : Nat)
  | step (h : Nat) (dt : F) (steps : Nat)
  | getState (h : Nat)
deriving DecidableEq, Repr

/-- Apply one call to the kernel state, discarding the returned values. -/
def applyOp (k : Kernel) : Op → Kernel
  | .create y0 vy0 => (pl_world_create y0 vy0 k).2
  | .destroy h => pl_world_destroy h k
  | .step h dt steps => (pl_world_step h dt steps k).2
  | .getState h => (pl_world_get_state h k).2.2

/-- Run a sequence of calls from the initial kernel state. -/
def run (ops : List Op) : Kernel := ops.foldl applyOp initKernel

/-- Collect the handles returned by the successful `create` calls while
running a sequence of kernel calls. -/
def runC : Kernel → List Op → Kernel × List Nat
  | k, [] => (k, [])
  | k, Op.create y0 vy0 :: rest =>
    ((runC (pl_world_create y0 vy0 k).2 rest).1,
     if (pl_world_create y0 vy0 k).1 = 0 then
       (runC (pl_world_create y0 vy0 k).2 rest).2
     else
       (pl_world_create y0 vy0 k).1 :: (runC (pl_world_create y0 vy0 k).2 rest).2)
  | k, Op.destroy h :: rest => runC (pl_world_destroy h k) rest
  | k, Op.step h dt steps :: rest => runC (pl_world_step h dt steps k).2 rest
  | k, Op.getState h :: rest => runC (pl_world_get_state h k).2.2 rest

/-- Every live world in the registry has all three fields finite. -/
def WorldsFinite (k : Kernel) : Prop :=
  ∀ p ∈ k.worlds, p.2.allFinite = true

/-- Every live handle is below the next-handle counter. -/
def HandlesBounded (k : Kernel) : Prop :=
  ∀ p ∈ k.worlds, p.1 < k.nextHandle

theorem mem_of_lookup_eq_some {ws : List (Nat × World)} {h : Nat} {w : World}
    (hl : ws.lookup h = some w) : (h, w) ∈ ws := by
  induction ws with
  | nil => simp [List.lookup] at hl
  | cons p t ih =>
    obtain ⟨a, b⟩ := p
    rw [List.lookup] at hl
    by_cases hab : h = a
    · subst hab
      simp at hl
      subst hl
      exact List.mem_cons_self _ _
    · have : (h == a) = false := by simp [hab]
      rw [this] at hl
      exact List.mem_cons_of_mem _ (ih hl)

theorem lookup_eq_none_iff (ws : List (Nat × World)) (h : Nat) :
    ws.lookup h = none ↔ ∀ p ∈ ws, p.1 ≠ h := by
  induction ws with
  | nil => simp
  | cons p t ih =>
    obtain ⟨a, b⟩ := p
    simp only [List.lookup_cons, List.mem_cons]
    by_cases hab : h = a
    · subst hab
      simp
    · simp only [beq_false_of_ne hab]
      rw [ih]
      constructor
      · rintro hall q (rfl | hq)
        · exact fun he => hab he.symm
        · exact hall q hq
      · intro hall q hq
        exact hall q (Or.inr hq)

theorem lookup_filter_ne (ws : List (Nat × World)) (h : Nat) :
    (ws.filter fun p => p.1 != h).lookup h = none := by
  rw [lookup_eq_none_iff]
  intro p hp
  have := List.of_mem_filter hp
  simpa using this

theorem lookup_filter_none {ws : List (Nat × World)} {h : Nat}
    (q : Nat × World → Bool) (hl : ws.lookup h = none) :
    (ws.filter q).lookup h = none := by
  rw [lookup_eq_none_iff] at hl ⊢
  intro p hp
  exact hl p (List.mem_of_mem_filter hp)

theorem mem_updateWorld {ws : List (Nat × World)} {h0 : Nat} {w : World}
    {p : Nat × World} (hp : p ∈ updateWorld ws h0 w) :
    p = (h0, w) ∨ p ∈ ws := by
  simp only [updateWorld, List.mem_map] at hp
  obtain ⟨q, hq, he⟩ := hp
  by_cases h : q.1 = h0
  · rw [if_pos h] at he
    exact Or.inl he.symm
  · rw [if_neg h] at he
    exact Or.inr (he ▸ hq)

theorem key_of_mem_updateWorld {ws : List (Nat × World)} {h0 : Nat}
    {w : World} {p : Nat × World} (hp : p ∈ updateWorld ws h0 w) :
    ∃ q ∈ ws, q.1 = p.1 := by
  simp only [updateWorld, List.mem_map] at hp
  obtain ⟨q, hq, he⟩ := hp
  by_cases h : q.1 = h0
  · rw [if_pos h] at he
    exact ⟨q, hq, by rw [← he, h]⟩
  · rw [if_neg h] at he
    exact ⟨q, hq, by rw [he]⟩

theorem lookup_updateWorld_none {ws : List (Nat × World)} {h0 h : Nat}
    {w : World} (hl : ws.lookup h = none) :
    (updateWorld ws h0 w).lookup h = none := by
  rw [lookup_eq_none_iff] at hl ⊢
  intro p hp
  obtain ⟨q, hq, hk⟩ := key_of_mem_updateWorld hp
  rw [← hk]
  exact hl q hq

theorem validate_steps_ne_zero {dt : F} {steps : Nat}
    (hv : validate dt steps = true) : steps ≠ 0 := by
  intro h0
  subst h0
  cases dt <;> simp [validate] at hv

theorem advanceN_allFinite {n : Nat} {w : World} {dt : F} {w2 : World}
    (hn : n ≠ 0) (ha : advanceN n w dt = some w2) : w2.allFinite = true := by
  induction n generalizing w with
  | zero => exact absurd rfl hn
  | succ m ih =>
    rw [advanceN] at ha
    by_cases hf : (advance w dt).allFinite
    · rw [if_pos hf] at ha
      cases m with
      | zero =>
        rw [advanceN] at ha
        cases ha
        exact hf
      | succ m2 => exact ih (Nat.succ_ne_zero m2) ha
    · rw [if_neg hf] at ha
      cases ha

theorem advanceN_some_eq_iterate {n : Nat} {w : World} {dt : F} {w2 : World}
    (ha : advanceN n w dt = some w2) : w2 = (fun s => advance s dt)^[n] w := by
  induction n generalizing w with
  | zero =>
    rw [advanceN] at ha
    cases ha
    rfl
  | succ m ih =>
    rw [advanceN] at ha
    by_cases hf : (advance w dt).allFinite
    · rw [if_pos hf] at ha
      rw [Function.iterate_succ_apply]
      exact ih ha
    · rw [if_neg hf] at ha
      cases ha

theorem worldsFinite_applyOp {k : Kernel} (hk : WorldsFinite k) (op : Op) :
    WorldsFinite (applyOp k op) := by
  cases op with
  | create y0 vy0 =>
    simp only [applyOp, pl_world_create]
    by_cases hc : (y0.isFinite && vy0.isFinite) = true
    · rw [if_pos hc]
      intro p hp
      rcases List.mem_cons.mp hp with rfl | hp2
      · simp only [Bool.and_eq_true] at hc
        have h0 : (F.fin (Q.ofInt 0)).isFinite = true := rfl
        simp [World.allFinite, h0, hc.1, hc.2]
      · exact hk p hp2
    · rw [if_neg hc]
      exact hk
  | destroy h =>
    intro p hp
    exact hk p (List.mem_of_mem_filter hp)
  | step h dt steps =>
    simp only [applyOp, pl_world_step]
    cases hl : k.worlds.lookup h with
    | none => simp only [hl]; exact hk
    | some w =>
      simp only [hl]
      by_cases hv : validate dt steps = true
      · rw [if_pos hv]
        cases ha : advanceN steps w dt with
        | none => simp only [ha]; exact hk
        | some w2 =>
          simp only [ha]
          intro p hp
          rcases mem_updateWorld hp with rfl | hp2
          · exact advanceN_allFinite (validate_steps_ne_zero hv) ha
          · exact hk p hp2
      · rw [if_neg hv]
        exact hk
  | getState h =>
    simp only [applyOp, pl_world_get_state]
    cases hl : k.worlds.lookup h with
    | none => simp only [hl]; exact hk
    | some w => simp only [hl]; exact hk

theorem nextHandle_mono (k : Kernel) (op : Op) :
    k.nextHandle ≤ (applyOp k op).nextHandle := by
  cases op with
  | create y0 vy0 =>
    simp only [applyOp, pl_world_create]
    by_cases hc : (y0.isFinite && vy0.isFinite) = true
    · rw [if_pos hc]
      exact Nat.le_succ _
    · rw [if_neg hc]
      exact Nat.le_refl _
  | destroy h => exact Nat.le_refl _
  | step h dt steps =>
    simp only [applyOp, pl_world_step]
    cases hl : k.worlds.lookup h with
    | none => simp only [hl]; exact Nat.le_refl _
    | some w =>
      simp only [hl]
      by_cases hv : validate dt steps = true
      · rw [if_pos hv]
        cases ha : advanceN steps w dt with
        | none => simp only [ha]; exact Nat.le_refl _
        | some w2 => simp only [ha]; exact Nat.le_refl _
      · rw [if_neg hv]
        exact Nat.le_refl _
  | getState h =>
    simp only [applyOp, pl_world_get_state]
    cases hl : k.worlds.lookup h with
    | none => simp only [hl]; exact Nat.le_refl _
    | some w => simp only [hl]; exact Nat.le_refl _

theorem handlesBounded_applyOp {k : Kernel} (hk : HandlesBounded k) (op : Op) :
    HandlesBounded (applyOp k op) := by
  cases op with
  | create y0 vy0 =>
    simp only [HandlesBounded, applyOp, pl_world_create]
    by_cases hc : (y0.isFinite && vy0.isFinite) = true
    · rw [if_pos hc]
      intro p hp
      rcases List.mem_cons.mp hp with rfl | hp2
      · exact Nat.lt_succ_self _
      · exact Nat.lt_succ_of_lt (hk p hp2)
    · rw [if_neg hc]
      exact hk
  | destroy h =>
    intro p hp
    exact hk p (List.mem_of_mem_filter hp)
  | step h dt steps =>
    simp only [HandlesBounded, applyOp, pl_world_step]
    cases hl : k.worlds.lookup h with
    | none => simp only [hl]; exact hk
    | some w =>
      simp only [hl]
      by_cases hv : validate dt steps = true
      · rw [if_pos hv]
        cases ha : advanceN steps w dt with
        | none => simp only [ha]; exact hk
        | some w2 =>
          simp only [ha]
          intro p hp
          obtain ⟨q, hq, hkey⟩ := key_of_mem_updateWorld hp
          rw [← hkey]
          exact hk q hq
      · rw [if_neg hv]
        exact hk
  | getState h =>
    simp only [HandlesBounded, applyOp, pl_world_get_state]
    cases hl : k.worlds.lookup h with
    | none => simp only [hl]; exact hk
    | some w => simp only [hl]; exact hk

theorem worldsFinite_foldl {k : Kernel} (hk : WorldsFinite k) (ops : List Op) :
    WorldsFinite (ops.foldl applyOp k) := by
  induction ops generalizing k with
  | nil => exact hk
  | cons op rest ih => exact ih (worldsFinite_applyOp hk op)

theorem handlesBounded_foldl {k : Kernel} (hk : HandlesBounded k)
    (ops : List Op) : HandlesBounded (ops.foldl applyOp k) := by
  induction ops generalizing k with
  | nil => exact hk
  | cons op rest ih => exact ih (handlesBounded_applyOp hk op)

theorem worldsFinite_run (ops : List Op) : WorldsFinite (run ops) :=
  worldsFinite_foldl (by intro p hp; simp [initKernel] at hp) ops

theorem handlesBounded_run (ops : List Op) : HandlesBounded (run ops) :=
  handlesBounded_foldl (by intro p hp; simp [initKernel] at hp) ops

theorem absent_applyOp {k : Kernel} {h : Nat}
    (hna : k.worlds.lookup h = none) (hb : h < k.nextHandle) (op : Op) :
    (applyOp k op).worlds.lookup h = none ∧ h < (applyOp k op).nextHandle := by
  cases op with
  | create y0 vy0 =>
    simp only [applyOp, pl_world_create]
    by_cases hc : (y0.isFinite && vy0.isFinite) = true
    · rw [if_pos hc]
      refine ⟨?_, Nat.lt_succ_of_lt hb⟩
      rw [lookup_eq_none_iff]
      intro p hp
      rcases List.mem_cons.mp hp with rfl | hp2
      · exact Nat.ne_of_gt hb
      · exact (lookup_eq_none_iff _ _).mp hna p hp2
    · rw [if_neg hc]
      exact ⟨hna, hb⟩
  | destroy h2 =>
    exact ⟨lookup_filter_none _ hna, hb⟩
  | step h2 dt steps =>
    simp only [applyOp, pl_world_step]
    cases hl : k.worlds.lookup h2 with
    | none => simp only [hl]; exact ⟨hna, hb⟩
    | some w =>
      simp only [hl]
      by_cases hv : validate dt steps = true
      · rw [if_pos hv]
        cases ha : advanceN steps w dt with
        | none => simp only [ha]; exact ⟨hna, hb⟩
        | some w2 => simp only [ha]; exact ⟨lookup_updateWorld_none hna, hb⟩
      · rw [if_neg hv]
        exact ⟨hna, hb⟩
  | getState h2 =>
    simp only [applyOp, pl_world_get_state]
    cases hl : k.worlds.lookup h2 with
    | none => simp only [hl]; exact ⟨hna, hb⟩
    | some w => simp only [hl]; exact ⟨hna, hb⟩

theorem absent_foldl {k : Kernel} {h : Nat}
    (hna : k.worlds.lookup h = none) (hb : h < k.nextHandle)
    (ops : List Op) :
    (ops.foldl applyOp k).worlds.lookup h = none := by
  induction ops generalizing k with
  | nil => exact hna
  | cons op rest ih =>
    obtain ⟨h1, h2⟩ := absent_applyOp hna hb op
    exact ih h1 h2

theorem create_success_handle {k : Kernel} {y0 vy0 : F}
    (hne : (pl_world_create y0 vy0 k).1 ≠ 0) :
    (pl_world_create y0 vy0 k).1 = k.nextHandle ∧
      (pl_world_create y0 vy0 k).2.nextHandle = k.nextHandle + 1 := by
  by_cases hc : (y0.isFinite && vy0.isFinite) = true
  · constructor
    · show (pl_world_create y0 vy0 k).1 = k.nextHandle
      unfold pl_world_create
      rw [if_pos hc]
    · show (pl_world_create y0 vy0 k).2.nextHandle = k.nextHandle + 1
      unfold pl_world_create
      rw [if_pos hc]
  · exfalso
    apply hne
    unfold pl_world_create
    rw [if_neg hc]

theorem runC_kernel_eq (k : Kernel) (ops : List Op) :
    (runC k ops).1 = ops.foldl applyOp k := by
  induction ops generalizing k with
  | nil => rfl
  | cons op rest ih =>
    cases op with
    | create y0 vy0 => exact ih _
    | destroy h => exact ih _
    | step h dt steps => exact ih _
    | getState h => exact ih _

theorem runC_bound_nodup (ops : List Op) (k : Kernel) :
    (∀ x ∈ (runC k ops).2, k.nextHandle ≤ x) ∧ (runC k ops).2.Nodup := by
  induction ops generalizing k with
  | nil => simp [runC]
  | cons op rest ih =>
    cases op with
    | create y0 vy0 =>
      simp only [runC]
      by_cases hc : (pl_world_create y0 vy0 k).1 = 0
      · rw [if_pos hc]
        obtain ⟨hbound, hnd⟩ := ih (pl_world_create y0 vy0 k).2
        refine ⟨fun x hx => ?_, hnd⟩
        exact Nat.le_trans (nextHandle_mono k (Op.create y0 vy0)) (hbound x hx)
      · rw [if_neg hc]
        obtain ⟨hch, hcn⟩ := create_success_handle hc
        obtain ⟨hbound, hnd⟩ := ih (pl_world_create y0 vy0 k).2
        constructor
        · intro x hx
          rcases List.mem_cons.mp hx with rfl | hx2
          · rw [hch]
          · have := hbound x hx2
            rw [hcn] at this
            omega
        · refine List.nodup_cons.mpr ⟨fun hmem => ?_, hnd⟩
          have := hbound _ hmem
          rw [hcn, hch] at this
          omega
    | destroy h =>
      simp only [runC]
      obtain ⟨hbound, hnd⟩ := ih (pl_world_destroy h k)
      exact ⟨fun x hx => Nat.le_trans (nextHandle_mono k (Op.destroy h)) (hbound x hx), hnd⟩
    | step h dt steps =>
      simp only [runC]
      obtain ⟨hbound, hnd⟩ := ih (pl_world_step h dt steps k).2
      exact ⟨fun x hx => Nat.le_trans (nextHandle_mono k (Op.step h dt steps)) (hbound x hx), hnd⟩
    | getState h =>
      simp only [runC]
      obtain ⟨hbound, hnd⟩ := ih (pl_world_get_state h k).2.2
      exact ⟨fun x hx => Nat.le_trans (nextHandle_mono k (Op.getState h)) (hbound x hx), hnd⟩

theorem step_lookup_none {k : Kernel} {h : Nat} {dt : F} {steps : Nat}
    (hl : k.worlds.lookup h = none) :
    pl_world_step h dt steps k =
      (PL_STATUS_INVALID_HANDLE,
       setErr k PL_STATUS_INVALID_HANDLE "invalid handle") := by
  unfold pl_world_step
  rw [hl]

theorem step_denied {k : Kernel} {h : Nat} {w : World} {dt : F} {steps : Nat}
    (hl : k.worlds.lookup h = some w) (hv : validate dt steps = false) :
    pl_world_step h dt steps k =
      (PL_STATUS_POLICY_DENIED,
       setErr k PL_STATUS_POLICY_DENIED "policy denied") := by
  unfold pl_world_step
  split
  · rename_i heq
    rw [hl] at heq
    exact Option.noConfusion heq
  · rename_i w2 heq
    rw [hl] at heq
    injection heq with hw
    subst hw
    rw [if_neg (by rw [hv]; exact Bool.false_ne_true)]

theorem step_internal {k : Kernel} {h : Nat} {w : World} {dt : F}
    {steps : Nat} (hl : k.worlds.lookup h = some w)
    (hv : validate dt steps = true) (ha : advanceN steps w dt = none) :
    pl_world_step h dt steps k =
      (PL_STATUS_INTERNAL_ERROR,
       setErr k PL_STATUS_INTERNAL_ERROR "non-finite result") := by
  unfold pl_world_step
  split
  · rename_i heq
    rw [hl] at heq
    exact Option.noConfusion heq
  · rename_i w2 heq
    rw [hl] at heq
    injection heq with hw
    subst hw
    rw [if_pos hv, ha]

theorem step_ok_eq {k : Kernel} {h : Nat} {w : World} {dt : F} {steps : Nat}
    {w2 : World} (hl : k.worlds.lookup h = some w)
    (hv : validate dt steps = true) (ha : advanceN steps w dt = some w2) :
    pl_world_step h dt steps k =
      (PL_STATUS_OK,
       { worlds := updateWorld k.worlds h w2, nextHandle := k.nextHandle,
         lastCode := PL_STATUS_OK, lastMsg := "" }) := by
  unfold pl_world_step
  split
  · rename_i heq
    rw [hl] at heq
    exact Option.noConfusion heq
  · rename_i w3 heq
    rw [hl] at heq
    injection heq with hw
    subst hw
    rw [if_pos hv, ha]

theorem get_state_none {k : Kernel} {h : Nat}
    (hl : k.worlds.lookup h = none) :
    pl_world_get_state h k =
      (PL_STATUS_INVALID_HANDLE, none,
       setErr k PL_STATUS_INVALID_HANDLE "invalid handle") := by
  unfold pl_world_get_state
  rw [hl]

theorem get_state_some {k : Kernel} {h : Nat} {w : World}
    (hl : k.worlds.lookup h = some w) :
    pl_world_get_state h k =
      (PL_STATUS_OK, some (w.t, w.y, w.vy),
       { k with lastCode := PL_STATUS_OK, lastMsg := "" }) := by
  unfold pl_world_get_state
  rw [hl]

/-- Decidable check of the golden values of the concrete scenario: the
returned state has `t = 1.0`, `y = 94.61 = 100 - 9.8 * 0.1 * 55 / 10`,
`vy = -9.8` (value equality of the rational pairs). -/
def goldenCheck (o : Option (F × F × F)) : Bool :=
  match o with
  | some (F.fin tv, F.fin yv, F.fin vyv) =>
    tv.eq (Q.ofInt 1) && yv.eq ⟨9461, 100⟩ && vyv.eq ⟨-49, 5⟩
  | _ => false

/-- C6: creating a world from a non-finite `y0` or `vy0` creates no
world (registry and handle counter unchanged), sets the error code to
`InvalidArgument`, and returns the sentinel handle 0. -/
theorem create_nonfinite_rejected (k : Kernel) (y0 vy0 : F)
    (hnf : y0.isFinite = false ∨ vy0.isFinite = false) :
    (pl_world_create y0 vy0 k).1 = 0 ∧
    (pl_world_create y0 vy0 k).2.worlds = k.worlds ∧
    (pl_world_create y0 vy0 k).2.nextHandle = k.nextHandle ∧
    (pl_world_create y0 vy0 k).2.lastCode = PL_STATUS_INVALID_ARGUMENT := by
  have hc : (y0.isFinite && vy0.isFinite) = false := by
    rcases hnf with h | h <;> simp [h]
  unfold pl_world_create
  rw [if_neg (by rw [hc]; exact Bool.false_ne_true)]
  exact ⟨rfl, rfl, rfl, rfl⟩

/-- Witness for C6 at `y0 = NaN`. -/
theorem create_nonfinite_rejected_witness :
    (pl_world_create F.nan (F.fin (Q.ofInt 0)) initKernel).1 = 0 ∧
    (pl_world_create F.nan (F.fin (Q.ofInt 0)) initKernel).2.worlds =
      initKernel.worlds ∧
    (pl_world_create F.nan (F.fin (Q.ofInt 0)) initKernel).2.nextHandle =
      initKernel.nextHandle ∧
    (pl_world_create F.nan (F.fin (Q.ofInt 0)) initKernel).2.lastCode =
      PL_STATUS_INVALID_ARGUMENT :=
  create_nonfinite_rejected initKernel F.nan (F.fin (Q.ofInt 0))
    (Or.inl rfl)

/-- C5: a handle that is absent from the registry (never created, or
destroyed — the first conjunct shows destroy removes it) is rejected:
`step` sets `InvalidHandle` and mutates nothing, `get_state` sets
`InvalidHandle` and returns no outputs. -/
theorem invalid_handle_rejected (k : Kernel) (h : Nat) (dt : F)
    (steps : Nat) :
    (pl_world_destroy h k).worlds.lookup h = none ∧
    (k.worlds.lookup h = none →
      pl_world_step h dt steps k =
        (PL_STATUS_INVALID_HANDLE,
         setErr k PL_STATUS_INVALID_HANDLE "invalid handle") ∧
      pl_world_get_state h k =
        (PL_STATUS_INVALID_HANDLE, none,
         setErr k PL_STATUS_INVALID_HANDLE "invalid handle")) :=
  ⟨lookup_filter_ne k.worlds h,
   fun hl => ⟨step_lookup_none hl, get_state_none hl⟩⟩

/-- Witness for C5 at a never-created handle of the initial kernel. -/
theorem invalid_handle_rejected_witness :
    (pl_world_destroy 7 initKernel).worlds.lookup 7 = none ∧
    (pl_world_step 7 F.nan 0 initKernel =
       (PL_STATUS_INVALID_HANDLE,
        setErr initKernel PL_STATUS_INVALID_HANDLE "invalid handle") ∧
     pl_world_get_state 7 initKernel =
       (PL_STATUS_INVALID_HANDLE, none,
        setErr initKernel PL_STATUS_INVALID_HANDLE "invalid handle")) :=
  ⟨(invalid_handle_rejected initKernel 7 F.nan 0).1,
   (invalid_handle_rejected initKernel 7 F.nan 0).2 (by decide)⟩

/-- C2: every world live after any sequence of kernel calls has finite
`t`, `y`, `vy`; and a `step` call in which some integrator invocation
produces a non-finite value aborts, leaves the registry exactly as it
was, and sets `InternalError`. -/
theorem live_worlds_finite_and_nonfinite_step_aborts :
    (∀ ops : List Op, ∀ p ∈ (run ops).worlds, p.2.allFinite = true) ∧
    (∀ (k : Kernel) (h : Nat) (w : World) (dt : F) (steps : Nat),
      k.worlds.lookup h = some w → validate dt steps = true →
      advanceN steps w dt = none →
      (pl_world_step h dt steps k).1 = PL_STATUS_INTERNAL_ERROR ∧
      (pl_world_step h dt steps k).2.worlds = k.worlds ∧
      (pl_world_step h dt steps k).2.lastCode = PL_STATUS_INTERNAL_ERROR) := by
  constructor
  · intro ops
    exact worldsFinite_run ops
  · intro k h w dt steps hl hv ha
    rw [step_internal hl hv ha]
    exact ⟨rfl, rfl, rfl⟩

/-- Witness for C2: the world created by `create(100, 0)` is finite, and
a step that overflows `y` past `FMAX` (world at `y = vy = FMAX`) aborts
with `InternalError` leaving the registry unchanged. -/
theorem live_worlds_finite_and_nonfinite_step_aborts_witness :
    ((1 : Nat),
      ({ t := F.fin (Q.ofInt 0), y := F.fin (Q.ofInt 100),
         vy := F.fin (Q.ofInt 0) } : World)).2.allFinite = true ∧
    ((pl_world_step 1 (F.fin (Q.ofInt 1)) 1
        (pl_world_create (F.fin FMAX) (F.fin FMAX) initKernel).2).1 =
      PL_STATUS_INTERNAL_ERROR ∧
     (pl_world_step 1 (F.fin (Q.ofInt 1)) 1
        (pl_world_create (F.fin FMAX) (F.fin FMAX) initKernel).2).2.worlds =
      (pl_world_create (F.fin FMAX) (F.fin FMAX) initKernel).2.worlds ∧
     (pl_world_step 1 (F.fin (Q.ofInt 1)) 1
        (pl_world_create (F.fin FMAX) (F.fin FMAX) initKernel).2).2.lastCode =
      PL_STATUS_INTERNAL_ERROR) :=
  ⟨live_worlds_finite_and_nonfinite_step_aborts.1
     [Op.create (F.fin (Q.ofInt 100)) (F.fin (Q.ofInt 0))]
     (1, { t := F.fin (Q.ofInt 0), y := F.fin (Q.ofInt 100),
           vy := F.fin (Q.ofInt 0) })
     (by decide),
   live_worlds_finite_and_nonfinite_step_aborts.2
     (pl_world_create (F.fin FMAX) (F.fin FMAX) initKernel).2 1
     { t := F.fin (Q.ofInt 0), y := F.fin FMAX, vy := F.fin FMAX }
     (F.fin (Q.ofInt 1)) 1 (by decide) (by decide) (by decide)⟩

/-- C1 counterexample: a valid handle and a `(dt, steps)` pair meeting
every stated condition (`dt > 0`, `0 < steps <= MAX_STEPS`, and even the
full policy guard) for which `step` does not return OK: the world sits
at `y = vy = FMAX`, so the first integrator invocation overflows and the
call fails with `InternalError` instead. -/
theorem step_valid_args_not_always_ok :
    ((pl_world_create (F.fin FMAX) (F.fin FMAX) initKernel).2.worlds.lookup
        1).isSome = true ∧
    (Q.ofInt 0).lt (Q.ofInt 1) = true ∧
    0 < 1 ∧ 1 ≤ MAX_STEPS ∧
    validate (F.fin (Q.ofInt 1)) 1 = true ∧
    (pl_world_step 1 (F.fin (Q.ofInt 1)) 1
        (pl_world_create (F.fin FMAX) (F.fin FMAX) initKernel).2).1 ≠
      PL_STATUS_OK := by
  decide

/-- C1 (amended): for a valid handle and a `(dt, steps)` pair accepted
by the policy guard, and provided every one of the `steps` integrator
invocations produces finite values, `step` returns OK and replaces the
stored state with the `steps`-fold iterate of the semi-implicit Euler
update (velocity first, then position, then time), clearing LastError. -/
theorem step_ok_commits (k : Kernel) (h : Nat) (w : World) (dt : F)
    (steps : Nat) (w2 : World) (hl : k.worlds.lookup h = some w)
    (hv : validate dt steps = true) (ha : advanceN steps w dt = some w2) :
    pl_world_step h dt steps k =
      (PL_STATUS_OK,
       { worlds := updateWorld k.worlds h ((fun s => advance s dt)^[steps] w),
         nextHandle := k.nextHandle, lastCode := PL_STATUS_OK,
         lastMsg := "" }) := by
  rw [step_ok_eq hl hv ha, advanceN_some_eq_iterate ha]

/-- Witness for C1 (amended): one step of size 1 from the origin world. -/
theorem step_ok_commits_witness :
    pl_world_step 1 (F.fin (Q.ofInt 1)) 1
        (pl_world_create (F.fin (Q.ofInt 0)) (F.fin (Q.ofInt 0))
          initKernel).2 =
      (PL_STATUS_OK,
       { worlds := updateWorld
           (pl_world_create (F.fin (Q.ofInt 0)) (F.fin (Q.ofInt 0))
             initKernel).2.worlds 1
           ((fun s => advance s (F.fin (Q.ofInt 1)))^[1]
             { t := F.fin (Q.ofInt 0), y := F.fin (Q.ofInt 0),
               vy := F.fin (Q.ofInt 0) }),
         nextHandle := (pl_world_create (F.fin (Q.ofInt 0))
           (F.fin (Q.ofInt 0)) initKernel).2.nextHandle,
         lastCode := PL_STATUS_OK, lastMsg := "" }) :=
  step_ok_commits
    (pl_world_create (F.fin (Q.ofInt 0)) (F.fin (Q.ofInt 0)) initKernel).2
    1 { t := F.fin (Q.ofInt 0), y := F.fin (Q.ofInt 0),
        vy := F.fin (Q.ofInt 0) }
    (F.fin (Q.ofInt 1)) 1
    { t := F.fin ⟨1, 1⟩, y := F.fin ⟨-49, 5⟩, vy := F.fin ⟨-49, 5⟩ }
    (by decide) (by decide) (by decide)

/-- C10: the concrete run `create(100.0, 0.0)` then `step(h, 0.1, 10)`
returns OK, and `get_state` yields `t = 1.0`, `vy = -9.8`, and
`y = 94.61`, the golden value of the semi-implicit Euler recurrence. -/
theorem golden_scenario :
    (pl_world_create (F.fin (Q.ofInt 100)) (F.fin (Q.ofInt 0))
        initKernel).1 = 1 ∧
    (pl_world_step 1 (F.fin ⟨1, 10⟩) 10
        (pl_world_create (F.fin (Q.ofInt 100)) (F.fin (Q.ofInt 0))
          initKernel).2).1 = PL_STATUS_OK ∧
    (pl_world_get_state 1
        (pl_world_step 1 (F.fin ⟨1, 10⟩) 10
          (pl_world_create (F.fin (Q.ofInt 100)) (F.fin (Q.ofInt 0))
            initKernel).2).2).1 = PL_STATUS_OK ∧
    goldenCheck
      (pl_world_get_state 1
        (pl_world_step 1 (F.fin ⟨1, 10⟩) 10
          (pl_world_create (F.fin (Q.ofInt 100)) (F.fin (Q.ofInt 0))
            initKernel).2).2).2.1 = true := by
  decide

/-- C8: `last_error_message` returns the full untruncated message
length, writes only a prefix of the message into the buffer (never past
its capacity, the rest of the buffer untouched), and with a
zero-capacity buffer writes nothing while still returning the full
length. -/
theorem last_error_message_spec (msg buf : List Nat) :
    (pl_last_error_message msg buf).2 = msg.length ∧
    (pl_last_error_message msg buf).1.length = buf.length ∧
    (pl_last_error_message msg buf).1.take (min msg.length buf.length) =
      msg.take (min msg.length buf.length) ∧
    (pl_last_error_message msg buf).1.drop (min msg.length buf.length) =
      buf.drop (min msg.length buf.length) ∧
    (buf.length = 0 → (pl_last_error_message msg buf).1 = buf) := by
  refine ⟨rfl, ?_, ?_, ?_, ?_⟩
  · simp only [pl_last_error_message, List.length_append, List.length_take,
      List.length_drop]
    omega
  · rcases Nat.le_total msg.length buf.length with hle | hle
    · rw [Nat.min_eq_left hle]
      simp only [pl_last_error_message]
      rw [List.take_of_length_le hle, List.take_append_eq_append_take]
      rw [List.take_of_length_le (Nat.le_refl _), Nat.sub_self,
        List.take_zero, List.append_nil]
    · rw [Nat.min_eq_right hle]
      simp only [pl_last_error_message]
      rw [List.take_append_eq_append_take, List.take_take,
        Nat.min_self, List.length_take, Nat.min_eq_left hle,
        Nat.sub_self, List.take_zero, List.append_nil]
  · rcases Nat.le_total msg.length buf.length with hle | hle
    · rw [Nat.min_eq_left hle]
      simp only [pl_last_error_message]
      rw [List.take_of_length_le hle]
      exact List.drop_left msg _
    · rw [Nat.min_eq_right hle]
      simp only [pl_last_error_message]
      rw [List.drop_append_eq_append_drop]
      have h1 : (msg.take buf.length).length = buf.length := by
        rw [List.length_take]
        omega
      rw [List.drop_eq_nil_of_le (Nat.le_of_eq h1), h1, Nat.sub_self,
        List.drop_zero, List.nil_append, List.drop_eq_nil_of_le hle,
        List.drop_eq_nil_of_le (Nat.le_refl _)]
  · intro h0
    have hb : buf = [] := List.length_eq_zero.mp h0
    subst hb
    simp [pl_last_error_message]

/-- Witness for C8: a three-byte message against a two-byte buffer. -/
theorem last_error_message_spec_witness :
    (pl_last_error_message [104, 105, 106] [0, 0]).2 =
      ([104, 105, 106] : List Nat).length ∧
    (pl_last_error_message [104, 105, 106] [0, 0]).1.length =
      ([0, 0] : List Nat).length ∧
    (pl_last_error_message [104, 105, 106] [0, 0]).1.take
        (min ([104, 105, 106] : List Nat).length
          (([0, 0] : List Nat).length)) =
      ([104, 105, 106] : List Nat).take
        (min ([104, 105, 106] : List Nat).length
          (([0, 0] : List Nat).length)) ∧
    (pl_last_error_message [104, 105, 106] [0, 0]).1.drop
        (min ([104, 105, 106] : List Nat).length
          (([0, 0] : List Nat).length)) =
      ([0, 0] : List Nat).drop
        (min ([104, 105, 106] : List Nat).length
          (([0, 0] : List Nat).length)) ∧
    (([0, 0] : List Nat).length = 0 →
      (pl_last_error_message [104, 105, 106] [0, 0]).1 = [0, 0]) :=
  last_error_message_spec [104, 105, 106] [0, 0]

/-- C4: creating a world from finite `y0`, `vy0` returns a fresh handle
(distinct from every live one), and `get_state` on it immediately
returns OK with `t = 0`, `y = y0`, `vy = vy0`. -/
theorem create_then_get_state (k : Kernel) (y0 vy0 : Q)
    (hb : ∀ p ∈ k.worlds, p.1 < k.nextHandle) :
    (∀ p ∈ k.worlds, p.1 ≠ (pl_world_create (F.fin y0) (F.fin vy0) k).1) ∧
    pl_world_get_state (pl_world_create (F.fin y0) (F.fin vy0) k).1
        (pl_world_create (F.fin y0) (F.fin vy0) k).2 =
      (PL_STATUS_OK, some (F.fin (Q.ofInt 0), F.fin y0, F.fin vy0),
       (pl_world_create (F.fin y0) (F.fin vy0) k).2) := by
  have hc : ((F.fin y0).isFinite && (F.fin vy0).isFinite) = true := rfl
  have h2 : pl_world_create (F.fin y0) (F.fin vy0) k =
      (k.nextHandle,
       { worlds := (k.nextHandle,
           { t := F.fin (Q.ofInt 0), y := F.fin y0, vy := F.fin vy0 }) ::
           k.worlds,
         nextHandle := k.nextHandle + 1, lastCode := PL_STATUS_OK,
         lastMsg := "" }) := by
    unfold pl_world_create
    rw [if_pos hc]
  constructor
  · intro p hp
    rw [h2]
    exact Nat.ne_of_lt (hb p hp)
  · rw [h2]
    have hlook : (((k.nextHandle,
        { t := F.fin (Q.ofInt 0), y := F.fin y0, vy := F.fin vy0 }) ::
        k.worlds).lookup k.nextHandle) =
        some { t := F.fin (Q.ofInt 0), y := F.fin y0, vy := F.fin vy0 } := by
      simp [List.lookup_cons]
    rw [get_state_some hlook]

/-- Witness for C4: `create(100, 0)` on the empty kernel, read back. -/
theorem create_then_get_state_witness :
    pl_world_get_state
        (pl_world_create (F.fin (Q.ofInt 100)) (F.fin (Q.ofInt 0))
          initKernel).1
        (pl_world_create (F.fin (Q.ofInt 100)) (F.fin (Q.ofInt 0))
          initKernel).2 =
      (PL_STATUS_OK,
       some (F.fin (Q.ofInt 0), F.fin (Q.ofInt 100), F.fin (Q.ofInt 0)),
       (pl_world_create (F.fin (Q.ofInt 100)) (F.fin (Q.ofInt 0))
         initKernel).2) :=
  (create_then_get_state initKernel (Q.ofInt 100) (Q.ofInt 0)
    (by decide)).2

/-- C3: for a valid handle, `step` returns `PolicyDenied` and leaves the
kernel state unchanged apart from LastError whenever `dt` is not finite,
`dt <= 0`, `steps = 0`, `steps > MAX_STEPS`, `dt` exceeds the per-call
maximum increment, or `dt * steps` overflows the representable range. -/
theorem step_policy_denied (k : Kernel) (h : Nat) (w : World) (dt : F)
    (steps : Nat) (hl : k.worlds.lookup h = some w)
    (hbad :
      dt.isFinite = false ∨
      (∃ q, dt = F.fin q ∧ q.le (Q.ofInt 0) = true) ∨
      steps = 0 ∨
      MAX_STEPS < steps ∨
      (∃ q, dt = F.fin q ∧ DT_MAX.lt q = true) ∨
      (∃ q, dt = F.fin q ∧ FMAX.lt (q.mul (Q.ofInt steps)) = true)) :
    pl_world_step h dt steps k =
      (PL_STATUS_POLICY_DENIED,
       setErr k PL_STATUS_POLICY_DENIED "policy denied") := by
  have hv : validate dt steps = false := by
    rcases hbad with h1 | ⟨q, rfl, h2⟩ | h3 | h4 | ⟨q, rfl, h5⟩ | ⟨q, rfl, h6⟩
    · cases dt with
      | fin q => simp [F.isFinite] at h1
      | pinf => rfl
      | ninf => rfl
      | nan => rfl
    · have hlt : (Q.ofInt 0).lt q = false := by
        simp only [Q.le, Q.lt, Q.ofInt, decide_eq_true_eq,
          decide_eq_false_iff_not] at h2 ⊢
        omega
      show ((Q.ofInt 0).lt q && q.le DT_MAX && (steps != 0) &&
        (steps ≤ MAX_STEPS : Bool) && (q.mul (Q.ofInt steps)).le FMAX) = false
      rw [hlt]
      simp
    · subst h3
      cases dt with
      | fin q => simp [validate]
      | pinf => rfl
      | ninf => rfl
      | nan => rfl
    · cases dt with
      | fin q =>
        have hs : (steps ≤ MAX_STEPS : Bool) = false := by
          simp only [decide_eq_false_iff_not]
          omega
        show ((Q.ofInt 0).lt q && q.le DT_MAX && (steps != 0) &&
          (steps ≤ MAX_STEPS : Bool) &&
          (q.mul (Q.ofInt steps)).le FMAX) = false
        rw [hs]
        simp
      | pinf => rfl
      | ninf => rfl
      | nan => rfl
    · have hle : q.le DT_MAX = false := by
        simp only [Q.le, Q.lt, decide_eq_true_eq,
          decide_eq_false_iff_not] at h5 ⊢
        omega
      show ((Q.ofInt 0).lt q && q.le DT_MAX && (steps != 0) &&
        (steps ≤ MAX_STEPS : Bool) && (q.mul (Q.ofInt steps)).le FMAX) = false
      rw [hle]
      simp
    · have hle : (q.mul (Q.ofInt steps)).le FMAX = false := by
        simp only [Q.le, Q.lt, decide_eq_true_eq,
          decide_eq_false_iff_not] at h6 ⊢
        omega
      show ((Q.ofInt 0).lt q && q.le DT_MAX && (steps != 0) &&
        (steps ≤ MAX_STEPS : Bool) && (q.mul (Q.ofInt steps)).le FMAX) = false
      rw [hle]
      simp
  exact step_denied hl hv

/-- Witness for C3: `dt = 0` against a freshly created world. -/
theorem step_policy_denied_witness :
    pl_world_step 1 (F.fin (Q.ofInt 0)) 1
        (pl_world_create (F.fin (Q.ofInt 0)) (F.fin (Q.ofInt 0))
          initKernel).2 =
      (PL_STATUS_POLICY_DENIED,
       setErr
         (pl_world_create (F.fin (Q.ofInt 0)) (F.fin (Q.ofInt 0))
           initKernel).2
         PL_STATUS_POLICY_DENIED "policy denied") :=
  step_policy_denied
    (pl_world_create (F.fin (Q.ofInt 0)) (F.fin (Q.ofInt 0)) initKernel).2
    1
    { t := F.fin (Q.ofInt 0), y := F.fin (Q.ofInt 0),
      vy := F.fin (Q.ofInt 0) }
    (F.fin (Q.ofInt 0)) 1 (by decide)
    (Or.inr (Or.inl ⟨Q.ofInt 0, rfl, by decide⟩))

/-- C7: handles are never reused — the handles of all successful
creates along any run are pairwise distinct, the next-handle counter is
monotonic and advanced by exactly one on each successful create (which
returns the old counter), and once a live handle is destroyed no
sequence of further calls makes it resolve again. -/
theorem handles_never_reused :
    (∀ ops : List Op, (runC initKernel ops).2.Nodup) ∧
    (∀ (k : Kernel) (op : Op), k.nextHandle ≤ (applyOp k op).nextHandle) ∧
    (∀ (k : Kernel) (y0 vy0 : F), (pl_world_create y0 vy0 k).1 ≠ 0 →
      (pl_world_create y0 vy0 k).1 = k.nextHandle ∧
      (pl_world_create y0 vy0 k).2.nextHandle = k.nextHandle + 1) ∧
    (∀ (ops1 : List Op) (h : Nat) (ops2 : List Op),
      (run ops1).worlds.lookup h ≠ none →
      (ops2.foldl applyOp (pl_world_destroy h (run ops1))).worlds.lookup h =
        none) := by
  refine ⟨fun ops => (runC_bound_nodup ops initKernel).2,
    fun k op => nextHandle_mono k op,
    fun k y0 vy0 hne => create_success_handle hne, ?_⟩
  intro ops1 h ops2 hne
  have hb : h < (run ops1).nextHandle := by
    cases hl : (run ops1).worlds.lookup h with
    | none => exact absurd hl hne
    | some w => exact handlesBounded_run ops1 (h, w) (mem_of_lookup_eq_some hl)
  have h1 : (pl_world_destroy h (run ops1)).worlds.lookup h = none :=
    lookup_filter_ne (run ops1).worlds h
  have h2 : h < (pl_world_destroy h (run ops1)).nextHandle := hb
  exact absent_foldl h1 h2 ops2

/-- Witness for C7: create, destroy, create again; the destroyed handle
no longer resolves and the collected handles are distinct. -/
theorem handles_never_reused_witness :
    (runC initKernel
      [Op.create (F.fin (Q.ofInt 0)) (F.fin (Q.ofInt 0)), Op.destroy 1,
       Op.create (F.fin (Q.ofInt 0)) (F.fin (Q.ofInt 0))]).2.Nodup ∧
    initKernel.nextHandle ≤ (applyOp initKernel (Op.destroy 3)).nextHandle ∧
    ((pl_world_create (F.fin (Q.ofInt 5)) (F.fin (Q.ofInt 6))
        initKernel).1 = initKernel.nextHandle ∧
     (pl_world_create (F.fin (Q.ofInt 5)) (F.fin (Q.ofInt 6))
        initKernel).2.nextHandle = initKernel.nextHandle + 1) ∧
    (([] : List Op).foldl applyOp
      (pl_world_destroy 1
        (run [Op.create (F.fin (Q.ofInt 0))
          (F.fin (Q.ofInt 0))]))).worlds.lookup 1 = none :=
  ⟨handles_never_reused.1
     [Op.create (F.fin (Q.ofInt 0)) (F.fin (Q.ofInt 0)), Op.destroy 1,
      Op.create (F.fin (Q.ofInt 0)) (F.fin (Q.ofInt 0))],
   handles_never_reused.2.1 initKernel (Op.destroy 3),
   handles_never_reused.2.2.1 initKernel (F.fin (Q.ofInt 5))
     (F.fin (Q.ofInt 6)) (by decide),
   handles_never_reused.2.2.2
     [Op.create (F.fin (Q.ofInt 0)) (F.fin (Q.ofInt 0))] 1 [] (by decide)⟩

/-- C9: every kernel call overwrites LastError with the outcome of that
call — successful calls (and every destroy) clear it to `{OK, ""}`,
failing calls store their status code — and `last_error_code` reads the
current code without modifying anything. -/
theorem error_channel_reflects_outcome :
    (∀ (k : Kernel) (y0 vy0 : F),
      ((y0.isFinite && vy0.isFinite) = true →
        (pl_world_create y0 vy0 k).2.lastCode = PL_STATUS_OK ∧
        (pl_world_create y0 vy0 k).2.lastMsg = "") ∧
      ((y0.isFinite && vy0.isFinite) = false →
        (pl_world_create y0 vy0 k).2.lastCode =
          PL_STATUS_INVALID_ARGUMENT)) ∧
    (∀ (k : Kernel) (h : Nat),
      (pl_world_destroy h k).lastCode = PL_STATUS_OK ∧
      (pl_world_destroy h k).lastMsg = "") ∧
    (∀ (k : Kernel) (h : Nat) (dt : F) (steps : Nat),
      (pl_world_step h dt steps k).2.lastCode =
        (pl_world_step h dt steps k).1 ∧
      ((pl_world_step h dt steps k).1 = PL_STATUS_OK →
        (pl_world_step h dt steps k).2.lastMsg = "")) ∧
    (∀ (k : Kernel) (h : Nat),
      (pl_world_get_state h k).2.2.lastCode = (pl_world_get_state h k).1 ∧
      ((pl_world_get_state h k).1 = PL_STATUS_OK →
        (pl_world_get_state h k).2.2.lastMsg = "")) ∧
    (∀ k : Kernel, pl_last_error_code k = k.lastCode) := by
  refine ⟨?_, ?_, ?_, ?_, fun k => rfl⟩
  · intro k y0 vy0
    constructor
    · intro hc
      unfold pl_world_create
      rw [if_pos hc]
      exact ⟨rfl, rfl⟩
    · intro hc
      unfold pl_world_create
      rw [if_neg (by rw [hc]; exact Bool.false_ne_true)]
      rfl
  · intro k h
    exact ⟨rfl, rfl⟩
  · intro k h dt steps
    cases hl : k.worlds.lookup h with
    | none =>
      rw [step_lookup_none hl]
      exact ⟨rfl, fun habs => by
        simp [PL_STATUS_INVALID_HANDLE, PL_STATUS_OK] at habs⟩
    | some w =>
      cases hv : validate dt steps with
      | false =>
        rw [step_denied hl hv]
        exact ⟨rfl, fun habs => by
          simp [PL_STATUS_POLICY_DENIED, PL_STATUS_OK] at habs⟩
      | true =>
        cases ha : advanceN steps w dt with
        | none =>
          rw [step_internal hl hv ha]
          exact ⟨rfl, fun habs => by
            simp [PL_STATUS_INTERNAL_ERROR, PL_STATUS_OK] at habs⟩
        | some w2 =>
          rw [step_ok_eq hl hv ha]
          exact ⟨rfl, fun _ => rfl⟩
  · intro k h
    cases hl : k.worlds.lookup h with
    | none =>
      rw [get_state_none hl]
      exact ⟨rfl, fun habs => by
        simp [PL_STATUS_INVALID_HANDLE, PL_STATUS_OK] at habs⟩
    | some w =>
      rw [get_state_some hl]
      exact ⟨rfl, fun _ => rfl⟩

/-- Witness for C9: a successful create clears the error, a failing
create stores `InvalidArgument`, destroy clears, step and get_state
codes match their returned statuses, and `last_error_code` reads the
stored code. -/
theorem error_channel_reflects_outcome_witness :
    ((pl_world_create (F.fin (Q.ofInt 1)) (F.fin (Q.ofInt 2))
        initKernel).2.lastCode = PL_STATUS_OK ∧
     (pl_world_create (F.fin (Q.ofInt 1)) (F.fin (Q.ofInt 2))
        initKernel).2.lastMsg = "") ∧
    (pl_world_create F.nan (F.fin (Q.ofInt 0)) initKernel).2.lastCode =
      PL_STATUS_INVALID_ARGUMENT ∧
    ((pl_world_destroy 4 initKernel).lastCode = PL_STATUS_OK ∧
     (pl_world_destroy 4 initKernel).lastMsg = "") ∧
    (pl_world_step 9 F.nan 0 initKernel).2.lastCode =
      (pl_world_step 9 F.nan 0 initKernel).1 ∧
    (pl_world_get_state 9 initKernel).2.2.lastCode =
      (pl_world_get_state 9 initKernel).1 ∧
    pl_last_error_code initKernel = initKernel.lastCode :=
  ⟨(error_channel_reflects_outcome.1 initKernel (F.fin (Q.ofInt 1))
      (F.fin (Q.ofInt 2))).1 (by decide),
   (error_channel_reflects_outcome.1 initKernel F.nan
      (F.fin (Q.ofInt 0))).2 (by decide),
   error_channel_reflects_outcome.2.1 initKernel 4,
   (error_channel_reflects_outcome.2.2.1 initKernel 9 F.nan 0).1,
   (error_channel_reflects_outcome.2.2.2.1 initKernel 9).1,
   error_channel_reflects_outcome.2.2.2.2 initKernel⟩
